import Mathlib

/-!
Verification development for the VRChat photo uploader's upload pipeline
core (Rust sources under `src-tauri/src`).  The Rust code is shallowly
embedded: pure computations become Lean functions over `Nat`/`Int`/`ℚ`,
`String` and lists; Rust byte lengths (`str::len`) are modelled by the
UTF-8 byte count of the Lean string; fallible or panicking code returns
`Option`; the webhook driver's I/O is modelled as a trace of calls with
the network's answers supplied by an oracle.
-/

set_option maxRecDepth 10000

namespace VPU

/-! ## UTF-8 byte model

Rust `String`/`str` values are UTF-8 byte strings and `s.len()` counts
bytes.  `encodeChar`/`utf8` compute the UTF-8 encoding of a Lean string;
`blen` is the byte length, mirroring Rust `s.len()`. -/

/-- UTF-8 encoding of one scalar value, as its list of bytes. -/
def encodeChar (c : Char) : List Nat :=
  let n := c.toNat
  if n < 0x80 then [n]
  else if n < 0x800 then [0xC0 + n / 0x40, 0x80 + n % 0x40]
  else if n < 0x10000 then
    [0xE0 + n / 0x1000, 0x80 + (n / 0x40) % 0x40, 0x80 + n % 0x40]
  else
    [0xF0 + n / 0x40000, 0x80 + (n / 0x1000) % 0x40,
     0x80 + (n / 0x40) % 0x40, 0x80 + n % 0x40]

/-- UTF-8 bytes of a string. -/
def utf8 (s : String) : List Nat :=
  s.data.foldr (fun c acc => encodeChar c ++ acc) []

/-- Byte length of a string: Rust's `s.len()`. -/
def blen (s : String) : Nat := (utf8 s).length

/-! ## Data model (`commands.rs`)

`FailedUpload` and the progress-relevant fields of `UploadProgress`.
The float field `current_progress : f32` and the cosmetic
`current_image` label are omitted: no claim mentions them and they do
not influence any other field. -/

structure FailedUpload where
  file_path : String
  error : String
  retry_count : Nat
  is_retryable : Bool
deriving DecidableEq, Repr

structure UploadProgress where
  total_images : Nat
  completed : Nat
  failed_uploads : List FailedUpload
  successful_uploads : List String
  session_status : String
deriving DecidableEq, Repr

/-- Fresh session state, as initialised in `commands.rs` (`upload_images`):
`total_images = file_paths.len()`, everything else empty/zero, status
`"active"`. -/
def initProgress (n : Nat) : UploadProgress :=
  { total_images := n
    completed := 0
    failed_uploads := []
    successful_uploads := []
    session_status := "active" }

/-! ## Progress tracker (`uploader/progress_tracker.rs`)

Each `safe_progress_update` closure is modelled as a pure state
transformer on `UploadProgress` (the claims quantify over sequences of
operations applied to one session's state). -/

/-- `update_progress_success`: bump `completed`, append to
`successful_uploads`, drop any failed entry with the same path
(`retain`). -/
def update_progress_success (p : UploadProgress) (file_path : String) :
    UploadProgress :=
  { p with
    completed := p.completed + 1
    successful_uploads := p.successful_uploads ++ [file_path]
    failed_uploads := p.failed_uploads.filter (fun f => f.file_path ≠ file_path) }

/-- Helper for `update_progress_failure`: Rust's
`iter_mut().find(|f| f.file_path == file_path)` mutates the first
matching entry: `retry_count += 1`, `error`/`is_retryable` replaced. -/
def bumpFirstFailure (l : List FailedUpload) (file_path error : String)
    (is_retryable : Bool) : List FailedUpload :=
  match l with
  | [] => []
  | f :: fs =>
    if f.file_path = file_path then
      { f with retry_count := f.retry_count + 1, error := error,
               is_retryable := is_retryable } :: fs
    else f :: bumpFirstFailure fs file_path error is_retryable

/-- `update_progress_failure`: bump `completed`; if the path already has
a failed entry, update it in place, otherwise push a fresh entry with
`retry_count = 0`. -/
def update_progress_failure (p : UploadProgress) (file_path error : String)
    (is_retryable : Bool) : UploadProgress :=
  if p.failed_uploads.any (fun f => f.file_path = file_path) then
    { p with
      completed := p.completed + 1
      failed_uploads := bumpFirstFailure p.failed_uploads file_path error is_retryable }
  else
    { p with
      completed := p.completed + 1
      failed_uploads := p.failed_uploads ++
        [{ file_path := file_path, error := error, retry_count := 0,
           is_retryable := is_retryable }] }

/-- `update_progress_group_failure`: bump `completed` and always push a
fresh entry (error prefixed with the group id); no lookup of existing
entries. -/
def update_progress_group_failure (p : UploadProgress)
    (file_path error : String) (is_retryable : Bool) (group_id : String) :
    UploadProgress :=
  { p with
    completed := p.completed + 1
    failed_uploads := p.failed_uploads ++
      [{ file_path := file_path
         error := "[Group: " ++ group_id ++ "] " ++ error
         retry_count := 0
         is_retryable := is_retryable }] }

/-- One progress-tracker operation, as named by the claims. -/
inductive ProgOp where
  | success (file_path : String)
  | failure (file_path error : String) (is_retryable : Bool)
  | groupFailure (file_path error : String) (is_retryable : Bool) (group_id : String)
deriving DecidableEq, Repr

/-- Path an operation reports on. -/
def ProgOp.path : ProgOp → String
  | .success fp => fp
  | .failure fp _ _ => fp
  | .groupFailure fp _ _ _ => fp

def applyOp (p : UploadProgress) : ProgOp → UploadProgress
  | .success fp => update_progress_success p fp
  | .failure fp e r => update_progress_failure p fp e r
  | .groupFailure fp e r g => update_progress_group_failure p fp e r g

def applyOps (p : UploadProgress) (ops : List ProgOp) : UploadProgress :=
  ops.foldl applyOp p

/-- All paths currently recorded in the session, with multiplicity:
`successful_uploads ∪ failed_uploads` as a list. -/
def recordedPaths (p : UploadProgress) : List String :=
  p.successful_uploads ++ p.failed_uploads.map (fun f => f.file_path)

/-! ## Time estimate (`update_time_estimate`)

The Rust function computes over `f64` and casts with `as u64`;
the arithmetic is modelled exactly over `ℚ` (the inputs `completed`,
`total` are integers and `elapsed` a positive duration), `1.3` as
`13/10`, and the `as u64` cast — truncation toward zero — as `Int.floor`
(the values are nonnegative).  `completed - total` uses `usize`
subtraction; the model uses `Nat` subtraction, which agrees whenever
`completed ≤ total` (otherwise Rust would underflow/panic).  Returns
`none` when the function exits without touching the state
(`completed == 0`), otherwise `some` of the seconds value stored into
`estimated_time_remaining`. -/
def update_time_estimate (completed : Nat) (elapsed : ℚ) (total : Nat) :
    Option Nat :=
  if completed = 0 then none
  else
    let rate : ℚ := (completed : ℚ) / elapsed
    let remaining : Nat := total - completed
    let estimated : Nat :=
      if 0 < rate then (⌊((remaining : ℚ) / rate) * (13 / 10)⌋).toNat else 0
    some estimated

/-! ## Cancellation check (`is_session_cancelled`, `errors.rs`)

The progress map is a `HashMap<String, UploadProgress>` behind a mutex;
`lockOk` models whether `progress_state.lock()` succeeds.  Lookup is by
exact session-id key. -/

/-- `safe_progress_read`: `none` when the lock is poisoned or the
session id is absent; otherwise applies the reader. -/
def safe_progress_read {α : Type} (lockOk : Bool)
    (sessions : List (String × UploadProgress)) (session_id : String)
    (f : UploadProgress → α) : Option α :=
  if lockOk then
    match sessions.find? (fun kv => kv.1 = session_id) with
    | some kv => some (f kv.2)
    | none => none
  else none

/-- `is_session_cancelled`: reads `session_status == "cancelled"` and
maps a failed read to `true` (`unwrap_or(true)`). -/
def is_session_cancelled (lockOk : Bool)
    (sessions : List (String × UploadProgress)) (session_id : String) : Bool :=
  (safe_progress_read lockOk sessions session_id
    (fun p => p.session_status == "cancelled")).getD true

/-! ## Image metadata types (`commands.rs`) -/

structure PlayerInfo where
  id : String
  display_name : String
deriving DecidableEq, Repr

structure WorldInfo where
  id : String
  name : String
deriving DecidableEq, Repr

structure ImageMetadata where
  world : Option WorldInfo
  players : List PlayerInfo
deriving DecidableEq, Repr

/-! ## Grouper (`uploader/image_groups.rs`)

`group_images_by_metadata` first extracts metadata and a filename
timestamp per image (async file I/O); the model takes that data as the
input: one `ImageData` per file, in input order.  The per-group
`all_players`/`all_worlds` aggregation is carried out on fields no claim
mentions and it never influences `images`, `timestamp`, `group_id` or
the emitted order, so the model tracks those three fields. -/

structure ImageData where
  file_path : String
  metadata : Option ImageMetadata
  timestamp : Option Int
deriving DecidableEq, Repr

/-- A group, restricted to the fields the claims are about. -/
structure MGroup where
  images : List String
  timestamp : Option Int
  group_id : String
deriving DecidableEq, Repr

/-- `create_metadata_key`.  Rust `i64` division truncates toward zero,
which is `Int.tdiv` (Lean's `/` on `Int` is Euclidean division and
disagrees at negative timestamps, so it is not used here). -/
def create_metadata_key (metadata : ImageMetadata) (timestamp : Option Int)
    (time_window_seconds : Int) (no_time_limit : Bool) (group_by_world : Bool) :
    String :=
  let world_part :=
    if group_by_world then
      match metadata.world with
      | some w => w.id
      | none => "unknown"
    else "any_world"
  if no_time_limit then world_part ++ "_all"
  else world_part ++ "_t" ++ toString (Int.tdiv (timestamp.getD 0) time_window_seconds)

/-- The group key computed for one image in the first loop of
`group_images_by_metadata`. -/
def image_group_key (time_window_minutes : Nat) (group_by_world : Bool)
    (d : ImageData) : String :=
  let no_time_limit := time_window_minutes = 0
  let time_window_seconds : Int :=
    if no_time_limit then 1 else (time_window_minutes : Int) * 60
  match d.metadata with
  | some meta =>
    create_metadata_key meta d.timestamp time_window_seconds no_time_limit
      group_by_world
  | none =>
    if no_time_limit then "unknown_all"
    else
      match d.timestamp with
      | some ts => "unknown_" ++ toString (Int.tdiv ts time_window_seconds)
      | none => "unknown_" ++ d.file_path

/-- One step of the bucketing loop: `groups.entry(key).or_insert_with`
followed by `group.images.push(file_path)`.  A fresh group snapshots the
current image's timestamp and uses the key as `group_id`. -/
def addToGroups (acc : List (String × MGroup)) (key : String) (d : ImageData) :
    List (String × MGroup) :=
  if acc.any (fun kv => kv.1 = key) then
    acc.map (fun kv =>
      if kv.1 = key then
        (kv.1, { kv.2 with images := kv.2.images ++ [d.file_path] })
      else kv)
  else
    acc ++ [(key, { images := [d.file_path], timestamp := d.timestamp,
                    group_id := key })]

/-- The keyed groups in the order the keys were first created
(insertion order). -/
def buildGroups (time_window_minutes : Nat) (group_by_world : Bool)
    (ds : List ImageData) : List (String × MGroup) :=
  ds.foldl
    (fun acc d => addToGroups acc (image_group_key time_window_minutes group_by_world d) d)
    []

/-- The groups in insertion order (values of the map, were it iterated
in insertion order). -/
def groupsInOrder (time_window_minutes : Nat) (group_by_world : Bool)
    (ds : List ImageData) : List MGroup :=
  (buildGroups time_window_minutes group_by_world ds).map Prod.snd

/-- Sort key of the final `sort_by_key`: `timestamp.unwrap_or(0)`. -/
def tsKey (g : MGroup) : Int := g.timestamp.getD 0

/-- The comparison `sort_by_key(|g| g.timestamp.unwrap_or(0))` sorts by. -/
def tsLe (a b : MGroup) : Prop := tsKey a ≤ tsKey b

instance : DecidableRel tsLe := fun a b => inferInstanceAs (Decidable (tsKey a ≤ tsKey b))

instance : IsTotal MGroup tsLe := ⟨fun a b => Int.le_total (tsKey a) (tsKey b)⟩

instance : IsTrans MGroup tsLe := ⟨fun _ _ _ h h2 => le_trans h h2⟩

/-- The final stable sort.  Rust's `sort_by_key` is stable; any stable
sort produces the same list, so `List.insertionSort` (stable) stands in
for it. -/
def sortGroups (l : List MGroup) : List MGroup := l.insertionSort tsLe

/-- The set of lists `group_images_by_metadata` may return.  The Rust
code drains a `HashMap` with `into_values()`, whose order is
unspecified: the model admits every permutation `iter` of the
insertion-ordered groups as the pre-sort iteration order, and the result
is the stable sort of `iter` by `tsKey`. -/
def possibleOutput (time_window_minutes : Nat) (group_by_world : Bool)
    (ds : List ImageData) (out : List MGroup) : Prop :=
  ∃ iter : List MGroup,
    iter.Perm (groupsInOrder time_window_minutes group_by_world ds) ∧
    out = sortGroups iter

/-! ## Size-based splitter (`split_into_size_chunks`, `upload_queue.rs`)

File sizes come from `fs::metadata(path)` (with `unwrap_or(0)`);
the model abstracts the filesystem as a size function `sz`. -/

/-- `SAFE_CHUNK_SIZE_BYTES = 7 * 1024 * 1024`. -/
def SAFE_CHUNK_SIZE_BYTES : Nat := 7 * 1024 * 1024

/-- The splitter loop, carrying the current chunk and its byte total. -/
def splitLoop (sz : String → Nat) (paths : List String)
    (current_chunk : List String) (current_size : Nat) : List (List String) :=
  match paths with
  | [] => if current_chunk ≠ [] then [current_chunk] else []
  | path :: rest =>
    let file_size := sz path
    if file_size > SAFE_CHUNK_SIZE_BYTES then
      (if current_chunk ≠ [] then [current_chunk] else []) ++
        [[path]] ++ splitLoop sz rest [] 0
    else if current_size + file_size > SAFE_CHUNK_SIZE_BYTES ∧ current_chunk ≠ [] then
      current_chunk :: splitLoop sz rest [path] file_size
    else
      splitLoop sz rest (current_chunk ++ [path]) (current_size + file_size)

/-- `split_into_size_chunks`. -/
def split_into_size_chunks (sz : String → Nat) (file_paths : List String) :
    List (List String) :=
  splitLoop sz file_paths [] 0

/-! ## Message composer (`uploader/image_groups.rs`)

All length checks in the Rust code are on `String::len`, i.e. UTF-8
bytes, modelled by `blen`. -/

/-- The rendering of one world inside the main message:
`"**{name}** ([VRChat](<{vrchat_link}>), [VRCX](<{vrcx_link}>))"`. -/
def world_part (w : WorldInfo) : String :=
  "**" ++ w.name ++ "** ([VRChat](<https://vrchat.com/home/launch?worldId=" ++
    w.id ++ ">), [VRCX](<https://vrcx.azurewebsites.net/world/" ++ w.id ++ ">))"

/-- The worlds-and-timestamp part of the main message (the content
built by `create_message_content_with_players` before any player is
appended), for a non-empty world list. -/
def message_header (all_worlds : List WorldInfo) (timestamp : Option Int) :
    String :=
  let base := "📸 Photos taken at " ++
    String.intercalate ", " (all_worlds.map world_part)
  match timestamp with
  | some ts => base ++ " at <t:" ++ toString ts ++ ":f>"
  | none => base

/-- The player-appending loop (`for player in all_players.iter().skip(1)`),
written over the not-yet-processed suffix.  On a break the Rust code
takes `all_players[players_added..]` as the remainder, which is exactly
the suffix the loop is looking at, and appends the continuation comma. -/
def addPlayersLoop (rest : List PlayerInfo) (content : String) :
    String × List PlayerInfo :=
  match rest with
  | [] => (content, [])
  | p :: ps =>
    let addition := ", " ++ ("**" ++ p.display_name ++ "**")
    if blen content + blen addition > 1900 then (content ++ ",", p :: ps)
    else addPlayersLoop ps (content ++ addition)

/-- The text `addPlayersLoop` appends when every player in `rest` fits:
one `", **name**"` item per player. -/
def renderTail (rest : List PlayerInfo) : String :=
  match rest with
  | [] => ""
  | p :: ps => (", " ++ ("**" ++ p.display_name ++ "**")) ++ renderTail ps

/-- `create_message_content_with_players`: returns
`(content, remaining_players, had_players_in_main)`. -/
def create_message_content_with_players (all_worlds : List WorldInfo)
    (all_players : List PlayerInfo) (timestamp : Option Int)
    (include_player_names : Bool) : String × List PlayerInfo × Bool :=
  if all_worlds ≠ [] then
    let content := message_header all_worlds timestamp
    if include_player_names ∧ all_players ≠ [] then
      match all_players with
      | [] => (content, [], false)
      | p0 :: rest =>
        let first_player := "**" ++ p0.display_name ++ "**"
        if blen content + blen " with " + blen first_player ≤ 1900 then
          let r := addPlayersLoop rest (content ++ " with " ++ first_player)
          (r.1, r.2, true)
        else (content, all_players, false)
    else (content, [], false)
  else
    match timestamp with
    | some ts => ("📸 Photos" ++ " taken at <t:" ++ toString ts ++ ":f>", [], false)
    | none => ("📸 Photos", [], false)

/-- The overflow-message loop of `create_overflow_player_messages`,
returning the finished messages and the message under construction. -/
def overflowLoop (players : List PlayerInfo) (current : String)
    (prefixLen : Nat) (acc : List String) : List String × String :=
  match players with
  | [] => (acc, current)
  | p :: ps =>
    let player_str := "**" ++ p.display_name ++ "**"
    let separator := if blen current > prefixLen then ", " else ""
    let addition := separator ++ player_str
    if blen current > prefixLen ∧ blen current + blen addition > 1900 then
      overflowLoop ps player_str prefixLen (acc ++ [current ++ ","])
    else overflowLoop ps (current ++ addition) prefixLen acc

/-- `create_overflow_player_messages`. -/
def create_overflow_player_messages (remaining_players : List PlayerInfo)
    (had_players_in_main : Bool) : List String :=
  let start := if !had_players_in_main then "with " else ""
  let prefixLen := blen start
  let r := overflowLoop remaining_players start prefixLen []
  if blen r.2 > prefixLen ∨ (!had_players_in_main ∧ r.2 ≠ "") then
    r.1 ++ [r.2]
  else r.1

/-! ## Thread title (`create_thread_title`)

The Rust code tests `title.len() > 100` (bytes) and slices
`&title[..97]` — a *byte* slice, which panics when byte 97 is not a
character boundary.  The model works on the UTF-8 bytes and returns
`none` exactly when Rust would panic. -/

/-- Rust `str::is_char_boundary` on a byte string: true at the length,
false beyond it, and at an interior index true iff the byte there is not
a UTF-8 continuation byte. -/
def is_char_boundary (bs : List Nat) (i : Nat) : Bool :=
  if i = bs.length then true
  else
    match bs.get? i with
    | some b => !(128 ≤ b ∧ b < 192 : Bool)
    | none => false

/-- The full (untruncated) title as UTF-8 bytes:
`"📸 Photos from " + join(", ", world names)`. -/
def fullTitleBytes (all_worlds : List WorldInfo) : List Nat :=
  utf8 ("📸 Photos from " ++
    String.intercalate ", " (all_worlds.map (fun w => w.name)))

/-- `create_thread_title`, with `none` for the byte-slice panic. -/
def create_thread_title (all_worlds : List WorldInfo) : Option (List Nat) :=
  if all_worlds ≠ [] then
    let title := fullTitleBytes all_worlds
    if title.length > 100 then
      if is_char_boundary title 97 then some (title.take 97 ++ utf8 "...")
      else none
    else some title
  else some (utf8 "📸 Photos")

/-- Number of characters a UTF-8 byte string decodes to: one per
non-continuation byte. -/
def charCount (bs : List Nat) : Nat :=
  (bs.filter (fun b => !(128 ≤ b ∧ b < 192 : Bool))).length

/-! ## Discord payload (`create_discord_payload`)

The Rust function returns a `HashMap<String, String>` holding at most
the keys `"content"` and `"thread_name"`, plus the overflow messages;
the map is modelled as a record of the two optional fields.  Building
the payload calls `create_thread_title`, so payload creation inherits
its panic (`none`). -/

structure TextFields where
  content : Option String := none
  thread_name : Option (List Nat) := none
deriving DecidableEq, Repr

/-- `create_discord_payload`: returns `(text_fields, overflow_messages)`,
or `none` for the `create_thread_title` panic. -/
def create_discord_payload (all_worlds : List WorldInfo)
    (all_players : List PlayerInfo) (timestamp : Option Int)
    (is_first_message : Bool) (_chunk_index : Nat) (is_forum_post : Bool)
    (_thread_id : Option String) (include_player_names : Bool) :
    Option (TextFields × List String) :=
  if is_first_message then
    let r := create_message_content_with_players all_worlds all_players
      timestamp include_player_names
    let fields : Option TextFields :=
      if is_forum_post then
        (create_thread_title all_worlds).map
          (fun t => { content := some r.1, thread_name := some t })
      else some { content := some r.1 }
    fields.map (fun fl =>
      (fl, if r.2.1 ≠ [] then create_overflow_player_messages r.2.1 r.2.2 else []))
  else some ({}, [])

/-! ## Upload driver trace (`process_image_group_with_failure_handling`)

The group-processing loop is modelled as a pure function emitting the
ordered trace of webhook calls it makes.  The network is an oracle
`net : Nat → NetResult` giving the outcome of the n-th call of the
group: `err` for a failed HTTP request and `ok tid` for a success whose
response body yields `tid` under `extract_thread_id` (JSON parsing is
abstracted into the oracle).  `upload_image_chunk_with_thread_id`
— which retries the same image set with compression or size-splitting
but introduces no text-only call — is abstracted as one image-bearing
call returning its final outcome.  Cancellation checks and
progress/database writes are omitted: the session is never cancelled in
this model and those writes make no webhook calls. -/

inductive NetResult where
  | err
  | ok (tid : Option String)
deriving DecidableEq, Repr

/-- One webhook call, in the order the driver issues them. -/
inductive Call where
  | forumText (content : String) (thread_name : Option (List Nat))
  | textMsg (content : String) (thread_id : Option String)
  | imageChunk (files : List String) (fields : TextFields)
      (thread_id : Option String)
deriving DecidableEq, Repr

/-- Fuel-driven worker for `chunksOf`; the fuel only forces structural
termination and never runs out when it starts at the list length. -/
def chunksOfAux {α : Type} (n : Nat) : Nat → List α → List (List α)
  | _, [] => []
  | 0, _ :: _ => []
  | fuel + 1, x :: xs =>
    if n = 0 then [x :: xs]
    else (x :: xs).take n :: chunksOfAux n fuel ((x :: xs).drop n)

/-- `Vec::chunks(n)`: consecutive slices of length `n` (last may be
shorter).  Rust panics on `n = 0`; the theorems only use `n ≥ 1`. -/
def chunksOf {α : Type} (n : Nat) (l : List α) : List (List α) :=
  chunksOfAux n l.length l

/-- Result of the text-first phase (the `first_message &&
!overflow_messages.is_empty()` block): calls made, thread id afterwards,
next oracle index, and whether the block failed the group
(`return false`). -/
structure TextPhase where
  calls : List Call
  thread_id : Option String
  callIdx : Nat
  failed : Bool
deriving Repr

/-- The text-first block.  Forum path (`is_forum && is_first_group`):
send content with `thread_name` as a text-only call; on success with an
extractable thread id, send every overflow message into that thread
(failures of those are only logged); on success without a thread id,
skip the overflow sends; on error, fail the group.  Non-forum path:
send the content as a text message; on success send the overflow
messages; an error is only logged. -/
def firstTextPhase (isForum is_first_group : Bool) (fields : TextFields)
    (overflow_messages : List String) (thread_id : Option String)
    (callIdx : Nat) (net : Nat → NetResult) : TextPhase :=
  let main_content := fields.content.getD ""
  if isForum && is_first_group then
    match net callIdx with
    | .err =>
      { calls := [.forumText main_content fields.thread_name]
        thread_id := thread_id, callIdx := callIdx + 1, failed := true }
    | .ok (some tid) =>
      { calls := .forumText main_content fields.thread_name ::
          overflow_messages.map (fun m => .textMsg m (some tid))
        thread_id := some tid
        callIdx := callIdx + 1 + overflow_messages.length, failed := false }
    | .ok none =>
      { calls := [.forumText main_content fields.thread_name]
        thread_id := thread_id, callIdx := callIdx + 1, failed := false }
  else
    match net callIdx with
    | .err =>
      { calls := [.textMsg main_content thread_id]
        thread_id := thread_id, callIdx := callIdx + 1, failed := false }
    | .ok _ =>
      { calls := .textMsg main_content thread_id ::
          overflow_messages.map (fun m => .textMsg m thread_id)
        thread_id := thread_id
        callIdx := callIdx + 1 + overflow_messages.length, failed := false }

/-- The per-chunk loop of `process_image_group_with_failure_handling`.
Returns the call trace and the group's success flag; `none` models the
`create_thread_title` panic inside payload creation. -/
def runChunks (all_worlds : List WorldInfo) (all_players : List PlayerInfo)
    (timestamp : Option Int) (isForum is_first_group include_player_names : Bool)
    (totalChunks : Nat) (net : Nat → NetResult) :
    List (List String) → Nat → Bool → Option String → Nat →
    Option (List Call × Bool)
  | [], _, _, _, _ => some ([], true)
  | chunk :: rest, chunk_index, first_message, thread_id, callIdx =>
    match create_discord_payload all_worlds all_players timestamp
        first_message chunk_index (isForum && is_first_group) thread_id
        include_player_names with
    | none => none
    | some (fields, overflow_messages) =>
      let ph : TextPhase :=
        if first_message ∧ overflow_messages ≠ [] then
          firstTextPhase isForum is_first_group fields overflow_messages
            thread_id callIdx net
        else
          { calls := [], thread_id := thread_id, callIdx := callIdx,
            failed := false }
      let fieldsForImages : TextFields :=
        if first_message ∧ overflow_messages ≠ [] then {} else fields
      if ph.failed then some (ph.calls, false)
      else if isForum ∧ chunk_index > 0 ∧ ph.thread_id = none then
        some (ph.calls, false)
      else
        let imgCall := Call.imageChunk chunk fieldsForImages ph.thread_id
        match net ph.callIdx with
        | .err => some (ph.calls ++ [imgCall], false)
        | .ok tidOpt =>
          if isForum ∧ first_message ∧ ph.thread_id = none then
            match tidOpt with
            | some tid =>
              (runChunks all_worlds all_players timestamp isForum
                  is_first_group include_player_names totalChunks net rest
                  (chunk_index + 1) false (some tid) (ph.callIdx + 1)).map
                (fun r => (ph.calls ++ imgCall :: r.1, r.2))
            | none =>
              if totalChunks > 1 then some (ph.calls ++ [imgCall], false)
              else
                (runChunks all_worlds all_players timestamp isForum
                    is_first_group include_player_names totalChunks net rest
                    (chunk_index + 1) false none (ph.callIdx + 1)).map
                  (fun r => (ph.calls ++ imgCall :: r.1, r.2))
          else
            (runChunks all_worlds all_players timestamp isForum
                is_first_group include_player_names totalChunks net rest
                (chunk_index + 1) false ph.thread_id (ph.callIdx + 1)).map
              (fun r => (ph.calls ++ imgCall :: r.1, r.2))

/-- `process_image_group_with_failure_handling`: cap the chunk size at
10 for forum channels, chunk the group's images by count, and run the
chunk loop. -/
def process_image_group (all_worlds : List WorldInfo)
    (all_players : List PlayerInfo) (timestamp : Option Int)
    (max_images_per_message : Nat) (is_forum_channel : Bool)
    (include_player_names : Bool) (is_first_group : Bool)
    (images : List String) (net : Nat → NetResult) :
    Option (List Call × Bool) :=
  let effective_max_images :=
    if is_forum_channel && max_images_per_message > 10 then 10
    else max_images_per_message
  let chunks := chunksOf effective_max_images images
  runChunks all_worlds all_players timestamp is_forum_channel is_first_group
    include_player_names chunks.length net chunks 0 true none 0

/-- Whether a call is one of the text-only webhook calls. -/
def isTextCall : Call → Bool
  | .forumText _ _ => true
  | .textMsg _ _ => true
  | .imageChunk _ _ _ => false

/-- `true` iff some text-only call strictly precedes the first
image-bearing call of the trace (vacuously true when no image call
occurs). -/
def textBeforeFirstImage : List Call → Bool
  | [] => true
  | .imageChunk _ _ _ :: _ => false
  | _ :: _ => true

/-! ## Helper lemmas -/

theorem utf8_append (a b : String) : utf8 (a ++ b) = utf8 a ++ utf8 b := by
  have hdata : (a ++ b).data = a.data ++ b.data := rfl
  unfold utf8
  rw [hdata, List.foldr_append]
  induction a.data with
  | nil => simp
  | cons c l ih => simp [List.foldr_cons, ih, List.append_assoc]

theorem blen_append (a b : String) : blen (a ++ b) = blen a + blen b := by
  unfold blen
  rw [utf8_append, List.length_append]

theorem string_append_empty (s : String) : s ++ "" = s := by
  cases s with
  | mk data => show String.mk (data ++ []) = String.mk data; rw [List.append_nil]

theorem string_append_assoc (a b c : String) :
    a ++ b ++ c = a ++ (b ++ c) := by
  cases a with
  | mk da =>
    cases b with
    | mk db =>
      cases c with
      | mk dc =>
        show String.mk (da ++ db ++ dc) = String.mk (da ++ (db ++ dc))
        rw [List.append_assoc]

theorem chunksOfAux_congr {α : Type} (n : Nat) :
    ∀ (fuel fuel' : Nat) (l : List α), l.length ≤ fuel → l.length ≤ fuel' →
      chunksOfAux n fuel l = chunksOfAux n fuel' l := by
  intro fuel
  induction fuel with
  | zero =>
    intro fuel' l hl _
    cases l with
    | nil => cases fuel' <;> rfl
    | cons x xs => simp at hl
  | succ f ih =>
    intro fuel' l hl hl'
    cases l with
    | nil => cases fuel' <;> rfl
    | cons x xs =>
      cases fuel' with
      | zero => simp at hl'
      | succ f' =>
        simp only [List.length_cons] at hl hl'
        by_cases hn : n = 0
        · simp [chunksOfAux, hn]
        · simp only [chunksOfAux, if_neg hn]
          have hdrop : ((x :: xs).drop n).length ≤ f := by
            simp only [List.length_drop, List.length_cons]
            omega
          have hdrop' : ((x :: xs).drop n).length ≤ f' := by
            simp only [List.length_drop, List.length_cons]
            omega
          rw [ih f' _ hdrop hdrop']

theorem chunksOf_cons {α : Type} (n : Nat) (x : α) (xs : List α) (hn : n ≠ 0) :
    chunksOf n (x :: xs) =
      (x :: xs).take n :: chunksOf n ((x :: xs).drop n) := by
  unfold chunksOf
  simp only [List.length_cons, chunksOfAux, if_neg hn]
  refine congrArg _ (chunksOfAux_congr n _ _ _ ?_ ?_) <;>
    simp only [List.length_drop, List.length_cons] <;> omega

/-! ## C10 — unknown or inaccessible sessions count as cancelled -/

/-- **C10**: for a session id absent from the progress map, or when the
progress lock cannot be acquired, `is_session_cancelled` returns `true`
(the driver's guards then stop the upload: every entry point of
`upload_queue.rs` returns as soon as this check yields `true`). -/
theorem c10_missing_session_is_cancelled (lockOk : Bool)
    (sessions : List (String × UploadProgress)) (session_id : String)
    (h : sessions.find? (fun kv => kv.1 = session_id) = none ∨ lockOk = false) :
    is_session_cancelled lockOk sessions session_id = true := by
  unfold is_session_cancelled safe_progress_read
  rcases h with h | h
  · cases lockOk <;> simp [h]
  · simp [h]

/-- Witness for `c10_missing_session_is_cancelled` at the empty map. -/
theorem c10_missing_session_is_cancelled_witness :
    (([] : List (String × UploadProgress)).find?
        (fun kv => kv.1 = "session-1") = none ∨ true = false) ∧
      is_session_cancelled true [] "session-1" = true :=
  ⟨Or.inl rfl,
   c10_missing_session_is_cancelled true [] "session-1" (Or.inl rfl)⟩

/-! ## C9 — the ETA is the floor, not the ceiling -/

/-- **C9, counterexample**: with `k = 1` completion after `t = 1` second
and `total = 2`, the code stores `⌊1.3⌋ = 1` second, while the claimed
formula `ceil(remaining / rate · 1.3)` gives `2`. -/
theorem c9_counterexample :
    update_time_estimate 1 1 2 = some 1 ∧
      (⌈(((2 : Nat) - 1 : Nat) : ℚ) / ((1 : ℚ) / 1) * (13 / 10)⌉ : ℤ) = 2 := by
  constructor
  · unfold update_time_estimate
    norm_num
  · rw [Int.ceil_eq_iff]
    norm_num

/-- **C9, amended**: for `k ≥ 1` completions in `t > 0` seconds with
`k ≤ total`, `update_time_estimate` sets the estimate to
`⌊(total − k) · t · 13 / (10 · k)⌋` seconds — the *floor* (the `as u64`
truncation) of `(total − k) / (k / t) · 1.3`, not its ceiling. -/
theorem c9_amended (k total : Nat) (t : ℚ) (hk : 1 ≤ k) (hkt : k ≤ total)
    (ht : 0 < t) :
    update_time_estimate k t total =
      some (⌊((total - k : Nat) : ℚ) * t * 13 / (10 * k)⌋.toNat) := by
  unfold update_time_estimate
  have hk0 : k ≠ 0 := by omega
  rw [if_neg hk0]
  have hkQ : (0 : ℚ) < (k : ℚ) := by exact_mod_cast Nat.pos_of_ne_zero hk0
  have hrate : 0 < (k : ℚ) / t := div_pos hkQ ht
  show some (if 0 < (k : ℚ) / t then
      ⌊((total - k : Nat) : ℚ) / ((k : ℚ) / t) * (13 / 10)⌋.toNat else 0) = _
  rw [if_pos hrate]
  have harg : ((total - k : Nat) : ℚ) / ((k : ℚ) / t) * (13 / 10) =
      ((total - k : Nat) : ℚ) * t * 13 / (10 * k) := by
    rw [div_div_eq_mul_div, div_mul_div_comm, mul_comm (k : ℚ) 10]
  rw [harg]

/-- Witness for `c9_amended` at `k = 1`, `t = 1`, `total = 2`. -/
theorem c9_amended_witness :
    update_time_estimate 1 1 2 =
      some (⌊(((2 : Nat) - 1 : Nat) : ℚ) * 1 * 13 / (10 * 1)⌋.toNat) :=
  c9_amended 1 2 1 (le_refl 1) (by decide) one_pos

/-! ## C7 — the size-based splitter -/

/-- Invariant proof for the splitter loop: the emitted chunks
concatenate to `current ++ paths`, and every chunk either fits in
`SAFE_CHUNK_SIZE_BYTES` or is a single oversized file. -/
theorem splitLoop_spec (sz : String → Nat) :
    ∀ (paths current : List String) (csize : Nat),
      csize = (current.map sz).sum →
      (current.map sz).sum ≤ SAFE_CHUNK_SIZE_BYTES →
      (splitLoop sz paths current csize).flatten = current ++ paths ∧
      ∀ c ∈ splitLoop sz paths current csize,
        (c.map sz).sum ≤ SAFE_CHUNK_SIZE_BYTES ∨
          ∃ f, c = [f] ∧ sz f > SAFE_CHUNK_SIZE_BYTES := by
  intro paths
  induction paths with
  | nil =>
    intro current csize hcs hle
    by_cases hc : current = []
    · subst hc
      simp [splitLoop]
    · simp only [splitLoop, if_pos hc]
      constructor
      · simp
      · intro c hmem
        simp only [List.mem_singleton] at hmem
        subst hmem
        exact Or.inl hle
  | cons p rest ih =>
    intro current csize hcs hle
    by_cases hbig : sz p > SAFE_CHUNK_SIZE_BYTES
    · simp only [splitLoop, if_pos hbig]
      obtain ⟨hjoin, hok⟩ := ih [] 0 rfl (by simp)
      by_cases hc : current = []
      · subst hc
        constructor
        · simp [hjoin]
        · intro c hmem
          simp at hmem
          rcases hmem with hmem | hmem
          · subst hmem
            exact Or.inr ⟨p, rfl, hbig⟩
          · exact hok c hmem
      · constructor
        · simp only [if_pos hc, List.flatten_append, List.flatten_cons,
            List.singleton_append, hjoin]
          simp
        · intro c hmem
          simp only [if_pos hc, List.cons_append, List.singleton_append,
            List.nil_append, List.append_assoc, List.mem_cons] at hmem
          rcases hmem with hmem | hmem | hmem
          · subst hmem
            exact Or.inl hle
          · subst hmem
            exact Or.inr ⟨p, rfl, hbig⟩
          · exact hok c hmem
    · push_neg at hbig
      by_cases hfull : csize + sz p > SAFE_CHUNK_SIZE_BYTES ∧ current ≠ []
      · simp only [splitLoop, if_neg (by omega : ¬ sz p > SAFE_CHUNK_SIZE_BYTES),
          if_pos hfull]
        obtain ⟨hjoin, hok⟩ := ih [p] (sz p) (by simp) (by simpa using hbig)
        constructor
        · simp [hjoin]
        · intro c hmem
          simp only [List.mem_cons] at hmem
          rcases hmem with hmem | hmem
          · subst hmem
            exact Or.inl hle
          · exact hok c hmem
      · simp only [splitLoop, if_neg (by omega : ¬ sz p > SAFE_CHUNK_SIZE_BYTES),
          if_neg hfull]
        have hnew : ((current ++ [p]).map sz).sum = csize + sz p := by
          simp [hcs]
        have hnewle : ((current ++ [p]).map sz).sum ≤ SAFE_CHUNK_SIZE_BYTES := by
          rw [hnew]
          by_cases hc : current = []
          · subst hc
            simp only [List.map_nil, List.sum_nil] at hcs
            omega
          · rcases not_and_or.mp hfull with hover | hcur
            · omega
            · exact absurd hc hcur
        obtain ⟨hjoin, hok⟩ := ih (current ++ [p]) (csize + sz p)
          hnew.symm hnewle
        constructor
        · rw [hjoin]
          simp
        · exact hok

/-- **C7**: `split_into_size_chunks` partitions the file list into
consecutive sub-chunks — their concatenation is the input in order —
and every sub-chunk totals at most 7 MiB except that a single file
larger than 7 MiB stands alone in its own sub-chunk. -/
theorem c7_split_into_size_chunks_spec (sz : String → Nat)
    (file_paths : List String) :
    (split_into_size_chunks sz file_paths).flatten = file_paths ∧
    ∀ c ∈ split_into_size_chunks sz file_paths,
      (c.map sz).sum ≤ SAFE_CHUNK_SIZE_BYTES ∨
        ∃ f, c = [f] ∧ sz f > SAFE_CHUNK_SIZE_BYTES := by
  have h := splitLoop_spec sz file_paths [] 0 rfl (by simp)
  simpa [split_into_size_chunks] using h

/-! ## C2, C3 — session bookkeeping invariants -/

theorem filter_ne_of_not_mem (l : List FailedUpload) (fp : String)
    (h : fp ∉ l.map (fun f => f.file_path)) :
    l.filter (fun f => f.file_path ≠ fp) = l := by
  rw [List.filter_eq_self]
  intro a ha
  have hne : a.file_path ≠ fp := fun heq =>
    h (heq ▸ List.mem_map_of_mem (fun f => f.file_path) ha)
  simpa using hne

theorem any_path_eq_false (l : List FailedUpload) (fp : String)
    (h : fp ∉ l.map (fun f => f.file_path)) :
    l.any (fun f => f.file_path = fp) = false := by
  rw [List.any_eq_false]
  intro a ha
  have hne : a.file_path ≠ fp := fun heq =>
    h (heq ▸ List.mem_map_of_mem (fun f => f.file_path) ha)
  simpa using hne

/-- Applying one operation on a path not yet recorded appends exactly
that path to the recorded multiset and bumps `completed` by one. -/
theorem applyOp_fresh (p : UploadProgress) (op : ProgOp)
    (h : op.path ∉ recordedPaths p) :
    (applyOp p op).completed = p.completed + 1 ∧
    (applyOp p op).total_images = p.total_images ∧
    (recordedPaths (applyOp p op)).Perm (recordedPaths p ++ [op.path]) := by
  have hsucc : op.path ∉ p.successful_uploads := fun hm =>
    h (List.mem_append.mpr (Or.inl hm))
  have hfail : op.path ∉ p.failed_uploads.map (fun f => f.file_path) := fun hm =>
    h (List.mem_append.mpr (Or.inr hm))
  cases op with
  | success fp =>
    simp only [ProgOp.path] at hsucc hfail h
    refine ⟨rfl, rfl, ?_⟩
    simp only [applyOp, update_progress_success, recordedPaths]
    rw [filter_ne_of_not_mem _ _ hfail, List.append_assoc, List.append_assoc]
    exact List.Perm.append_left _ List.perm_append_comm
  | failure fp e r =>
    simp only [ProgOp.path] at hsucc hfail h
    have hany := any_path_eq_false _ _ hfail
    refine ⟨?_, ?_, ?_⟩
    · simp [applyOp, update_progress_failure, hany]
    · simp [applyOp, update_progress_failure, hany]
    · simp only [applyOp, update_progress_failure, hany, Bool.false_eq_true,
        if_false, recordedPaths, List.map_append, List.map_cons, List.map_nil,
        List.append_assoc]
      exact List.Perm.refl _
  | groupFailure fp e r g =>
    simp only [ProgOp.path] at hsucc hfail h
    refine ⟨rfl, rfl, ?_⟩
    simp only [applyOp, update_progress_group_failure, recordedPaths,
      List.map_append, List.map_cons, List.map_nil, List.append_assoc]
    exact List.Perm.refl _

/-- Folding a sequence of operations on pairwise-distinct, not yet
recorded paths: `completed` advances by the number of operations, the
recorded paths gain exactly those operation paths, and `total_images`
is untouched. -/
theorem applyOps_fresh (ops : List ProgOp) :
    ∀ (p : UploadProgress),
      (∀ op ∈ ops, op.path ∉ recordedPaths p) →
      (ops.map ProgOp.path).Nodup →
      (applyOps p ops).completed = p.completed + ops.length ∧
      (applyOps p ops).total_images = p.total_images ∧
      (recordedPaths (applyOps p ops)).Perm
        (recordedPaths p ++ ops.map ProgOp.path) := by
  induction ops with
  | nil =>
    intro p _ _
    exact ⟨rfl, rfl, by simp [applyOps]⟩
  | cons op rest ih =>
    intro p hfresh hnodup
    obtain ⟨h1, h2, h3⟩ := applyOp_fresh p op (hfresh op (List.mem_cons_self op rest))
    simp only [List.map_cons, List.nodup_cons] at hnodup
    have hfresh' : ∀ op' ∈ rest, op'.path ∉ recordedPaths (applyOp p op) := by
      intro op' hmem hrec
      have : op'.path ∈ recordedPaths p ++ [op.path] := h3.subset hrec
      rcases List.mem_append.mp this with hin | hin
      · exact hfresh op' (List.mem_cons_of_mem op hmem) hin
      · rcases List.mem_singleton.mp hin with heq
        exact hnodup.1 (heq ▸ List.mem_map_of_mem ProgOp.path hmem)
    obtain ⟨ih1, ih2, ih3⟩ := ih (applyOp p op) hfresh' hnodup.2
    refine ⟨?_, ?_, ?_⟩
    · show (applyOps (applyOp p op) rest).completed = p.completed + (op :: rest).length
      rw [ih1, h1, List.length_cons]
      omega
    · show (applyOps (applyOp p op) rest).total_images = p.total_images
      rw [ih2, h2]
    · show (recordedPaths (applyOps (applyOp p op) rest)).Perm _
      refine ih3.trans ?_
      have hperm := h3.append_right (rest.map ProgOp.path)
      rw [List.append_assoc] at hperm
      simpa using hperm

/-- **C2, counterexample**: the sequence "p fails, then p succeeds on
retry" (allowed by the tracker API) leaves `completed = 2` but
`|successful_uploads| + |failed_uploads| = 1`: `update_progress_success`
removes the prior failure entry while still incrementing `completed`. -/
theorem c2_counterexample :
    (applyOps (initProgress 2)
        [ProgOp.failure "a.png" "boom" true, ProgOp.success "a.png"]).completed ≠
      (applyOps (initProgress 2)
          [ProgOp.failure "a.png" "boom" true, ProgOp.success "a.png"]).successful_uploads.length +
        (applyOps (initProgress 2)
            [ProgOp.failure "a.png" "boom" true, ProgOp.success "a.png"]).failed_uploads.length := by
  decide

/-- **C2, amended**: the invariant `completed = |successful_uploads| +
|failed_uploads| ∧ completed ≤ total_images` holds after every sequence
of tracker operations whose file paths are pairwise distinct and whose
length is at most `total_images`; it can fail once some path is reported
twice (see the counterexample). -/
theorem c2_amended (ops : List ProgOp) (n : Nat)
    (hnodup : (ops.map ProgOp.path).Nodup) (hlen : ops.length ≤ n) :
    (applyOps (initProgress n) ops).completed =
        (applyOps (initProgress n) ops).successful_uploads.length +
          (applyOps (initProgress n) ops).failed_uploads.length ∧
      (applyOps (initProgress n) ops).completed ≤
        (applyOps (initProgress n) ops).total_images := by
  obtain ⟨h1, h2, h3⟩ := applyOps_fresh ops (initProgress n)
    (by intro op _ hmem; simp [recordedPaths, initProgress] at hmem) hnodup
  have hrec : (recordedPaths (applyOps (initProgress n) ops)).length = ops.length := by
    rw [h3.length_eq]
    simp [recordedPaths, initProgress]
  constructor
  · have : (recordedPaths (applyOps (initProgress n) ops)).length =
        (applyOps (initProgress n) ops).successful_uploads.length +
          (applyOps (initProgress n) ops).failed_uploads.length := by
      simp [recordedPaths]
    rw [h1, ← this, hrec]
    simp [initProgress]
  · rw [h1, h2]
    simp only [initProgress]
    omega

/-- Witness for `c2_amended`: two distinct files, one success and one
failure, in a session of three. -/
theorem c2_amended_witness :
    ((([ProgOp.success "a.png", ProgOp.failure "b.png" "err" true]).map
        ProgOp.path).Nodup ∧
      ([ProgOp.success "a.png", ProgOp.failure "b.png" "err" true]).length ≤ 3) ∧
    ((applyOps (initProgress 3)
        [ProgOp.success "a.png", ProgOp.failure "b.png" "err" true]).completed =
        (applyOps (initProgress 3)
            [ProgOp.success "a.png", ProgOp.failure "b.png" "err" true]).successful_uploads.length +
          (applyOps (initProgress 3)
              [ProgOp.success "a.png", ProgOp.failure "b.png" "err" true]).failed_uploads.length ∧
      (applyOps (initProgress 3)
          [ProgOp.success "a.png", ProgOp.failure "b.png" "err" true]).completed ≤
        (applyOps (initProgress 3)
            [ProgOp.success "a.png", ProgOp.failure "b.png" "err" true]).total_images) :=
  ⟨⟨by decide, by decide⟩, c2_amended _ 3 (by decide) (by decide)⟩

theorem bumpFirstFailure_spec (fp e : String) (r : Bool) :
    ∀ (l : List FailedUpload), l.any (fun f => f.file_path = fp) = true →
      (bumpFirstFailure l fp e r).length = l.length ∧
      ((bumpFirstFailure l fp e r).map (fun f => f.retry_count)).sum =
        (l.map (fun f => f.retry_count)).sum + 1 := by
  intro l
  induction l with
  | nil => intro h; simp at h
  | cons f fs ih =>
    intro h
    by_cases hf : f.file_path = fp
    · simp only [bumpFirstFailure, if_pos hf]
      constructor
      · simp
      · simp only [List.map_cons, List.sum_cons]
        omega
    · simp only [bumpFirstFailure, if_neg hf]
      have h' : fs.any (fun f => f.file_path = fp) = true := by
        simp only [List.any_cons, hf] at h
        simpa using h
      obtain ⟨ih1, ih2⟩ := ih h'
      constructor
      · simp [ih1]
      · simp only [List.map_cons, List.sum_cons, ih2]
        omega

/-- **C3, counterexample**: after `update_progress_failure` on `"a.png"`
followed by `update_progress_group_failure` on the same path, the
session holds *two* failure entries for `"a.png"` (the group-failure
operation appends unconditionally, with `retry_count = 0`, instead of
incrementing the existing entry), so the path does not appear at most
once in `successful_uploads ∪ failed_uploads`. -/
theorem c3_counterexample :
    ¬ (recordedPaths (applyOps (initProgress 2)
        [ProgOp.failure "a.png" "e1" true,
         ProgOp.groupFailure "a.png" "e2" true "grp"])).Nodup ∧
    (applyOps (initProgress 2)
        [ProgOp.failure "a.png" "e1" true,
         ProgOp.groupFailure "a.png" "e2" true "grp"]).failed_uploads.map
      (fun f => f.retry_count) = [0, 0] := by
  constructor
  · decide
  · decide

/-- **C3, amended**: (a) over sequences of operations with pairwise
distinct paths a path appears at most once in
`successful_uploads ∪ failed_uploads`; (b) marking a path successful
removes every failure entry for it, unconditionally; (c) a
`update_progress_failure` on an already-failed path increments the first
matching entry's `retry_count` and adds no entry; but (d) the
group-failure operation always appends a new entry, even for a path
already present (the claim's parenthetical fails, see the
counterexample). -/
theorem c3_amended :
    (∀ (ops : List ProgOp) (n : Nat), (ops.map ProgOp.path).Nodup →
        (recordedPaths (applyOps (initProgress n) ops)).Nodup) ∧
    (∀ (p : UploadProgress) (fp : String),
        ∀ f ∈ (update_progress_success p fp).failed_uploads,
          f.file_path ≠ fp) ∧
    (∀ (p : UploadProgress) (fp e : String) (r : Bool),
        p.failed_uploads.any (fun f => f.file_path = fp) = true →
          (update_progress_failure p fp e r).failed_uploads.length =
              p.failed_uploads.length ∧
            ((update_progress_failure p fp e r).failed_uploads.map
                (fun f => f.retry_count)).sum =
              (p.failed_uploads.map (fun f => f.retry_count)).sum + 1) ∧
    (∀ (p : UploadProgress) (fp e : String) (r : Bool) (g : String),
        (update_progress_group_failure p fp e r g).failed_uploads.length =
          p.failed_uploads.length + 1) := by
  refine ⟨?_, ?_, ?_, ?_⟩
  · intro ops n hnodup
    obtain ⟨_, _, h3⟩ := applyOps_fresh ops (initProgress n)
      (by intro op _ hmem; simp [recordedPaths, initProgress] at hmem) hnodup
    exact h3.nodup_iff.mpr (by simpa [recordedPaths, initProgress] using hnodup)
  · intro p fp f hf
    have := (List.mem_filter.mp hf).2
    simpa using this
  · intro p fp e r hany
    have hspec := bumpFirstFailure_spec fp e r p.failed_uploads hany
    simp only [update_progress_failure, hany, if_true]
    exact hspec
  · intro p fp e r g
    simp [update_progress_group_failure]

/-- Witness for `c3_amended` (part (c)) at a one-entry failure list. -/
theorem c3_amended_witness :
    (UploadProgress.mk 2 1 [FailedUpload.mk "a.png" "e1" 0 true] [] "active").failed_uploads.any
        (fun f => f.file_path = "a.png") = true ∧
    ((update_progress_failure
          (UploadProgress.mk 2 1 [FailedUpload.mk "a.png" "e1" 0 true] [] "active")
          "a.png" "e2" true).failed_uploads.length =
        (UploadProgress.mk 2 1 [FailedUpload.mk "a.png" "e1" 0 true] [] "active").failed_uploads.length ∧
      ((update_progress_failure
            (UploadProgress.mk 2 1 [FailedUpload.mk "a.png" "e1" 0 true] [] "active")
            "a.png" "e2" true).failed_uploads.map (fun f => f.retry_count)).sum =
        ((UploadProgress.mk 2 1 [FailedUpload.mk "a.png" "e1" 0 true] [] "active").failed_uploads.map
            (fun f => f.retry_count)).sum + 1) :=
  ⟨by decide,
   c3_amended.2.2.1
     (UploadProgress.mk 2 1 [FailedUpload.mk "a.png" "e1" 0 true] [] "active")
     "a.png" "e2" true (by decide)⟩

/-! ## C4, C6 — grouper -/

theorem addToGroups_keys_of_mem (acc : List (String × MGroup)) (key : String)
    (d : ImageData) (h : key ∈ acc.map Prod.fst) :
    (addToGroups acc key d).map Prod.fst = acc.map Prod.fst := by
  obtain ⟨kv, hkv, hfst⟩ := List.mem_map.mp h
  have hany : acc.any (fun kv => kv.1 = key) = true :=
    List.any_eq_true.mpr ⟨kv, hkv, by simpa using hfst⟩
  simp only [addToGroups, hany, if_true, List.map_map]
  refine List.map_congr_left ?_
  intro a _
  by_cases ha : a.1 = key
  · simp [ha]
  · simp [ha]

theorem foldl_addToGroups_const_key (tw : Nat) (bw : Bool) (K : String) :
    ∀ (ds : List ImageData) (acc : List (String × MGroup)),
      (∀ d ∈ ds, image_group_key tw bw d = K) →
      acc.map Prod.fst = [K] →
      ((ds.foldl (fun acc d => addToGroups acc (image_group_key tw bw d) d) acc).map
          Prod.fst) = [K] := by
  intro ds
  induction ds with
  | nil => intro acc _ hacc; simpa using hacc
  | cons d rest ih =>
    intro acc hkey hacc
    have hd : image_group_key tw bw d = K := hkey d (List.mem_cons_self d rest)
    have hmem : image_group_key tw bw d ∈ acc.map Prod.fst := by
      rw [hd, hacc]
      exact List.mem_singleton.mpr rfl
    have hstep := addToGroups_keys_of_mem acc (image_group_key tw bw d) d hmem
    exact ih (addToGroups acc (image_group_key tw bw d) d)
      (fun d' hd' => hkey d' (List.mem_cons_of_mem d hd'))
      (hstep.trans hacc)

/-- **C4, counterexample**: two images of the same world taken 2 seconds
apart (timestamps 599 and 601, spanning far less than 10 minutes) land
in different 600-second buckets (`599.tdiv 600 = 0`, `601.tdiv 600 = 1`), so
the grouper can only return two groups, not one. -/
theorem c4_counterexample :
    possibleOutput 10 true
      [ImageData.mk "a.png" (some (ImageMetadata.mk (some (WorldInfo.mk "wrld_A" "A")) [])) (some 599),
       ImageData.mk "b.png" (some (ImageMetadata.mk (some (WorldInfo.mk "wrld_A" "A")) [])) (some 601)]
      (sortGroups (groupsInOrder 10 true
        [ImageData.mk "a.png" (some (ImageMetadata.mk (some (WorldInfo.mk "wrld_A" "A")) [])) (some 599),
         ImageData.mk "b.png" (some (ImageMetadata.mk (some (WorldInfo.mk "wrld_A" "A")) [])) (some 601)])) ∧
    (sortGroups (groupsInOrder 10 true
        [ImageData.mk "a.png" (some (ImageMetadata.mk (some (WorldInfo.mk "wrld_A" "A")) [])) (some 599),
         ImageData.mk "b.png" (some (ImageMetadata.mk (some (WorldInfo.mk "wrld_A" "A")) [])) (some 601)])).length = 2 ∧
    (601 - 599 : Int) ≤ 10 * 60 :=
  ⟨⟨_, List.Perm.refl _, rfl⟩, by decide, by decide⟩

/-- **C4, amended**: the grouper with `group_by_world = true` and a
10-minute window yields exactly one group for a non-empty image list
whose images all carry metadata with the same world id and whose
timestamps (defaulting to 0) all fall into the *same 600-second bucket*
`ts.tdiv 600 = k` (Rust's truncating `i64` division) — not merely
within a 10-minute span of each other. -/
theorem c4_amended (ds : List ImageData) (w : String) (k : Int)
    (hne : ds ≠ [])
    (hw : ∀ d ∈ ds,
      (d.metadata.bind (fun m => m.world)).map (fun wi => wi.id) = some w)
    (hts : ∀ d ∈ ds, Int.tdiv (d.timestamp.getD 0) 600 = k) :
    ∀ out, possibleOutput 10 true ds out → out.length = 1 := by
  have hkey : ∀ d ∈ ds, image_group_key 10 true d = w ++ "_t" ++ toString k := by
    intro d hd
    have hwd := hw d hd
    have htd := hts d hd
    cases hm : d.metadata with
    | none => rw [hm] at hwd; simp at hwd
    | some m =>
      rw [hm] at hwd
      simp only [Option.some_bind] at hwd
      cases hworld : m.world with
      | none => rw [hworld] at hwd; simp at hwd
      | some wi =>
        rw [hworld] at hwd
        have hid : wi.id = w := by simpa using hwd
        simp [image_group_key, hm, create_metadata_key, hworld, hid]
        rw [htd]
  rintro out ⟨iter, hperm, rfl⟩
  have hlen1 : (groupsInOrder 10 true ds).length = 1 := by
    cases ds with
    | nil => exact absurd rfl hne
    | cons d rest =>
      have hbuild : (buildGroups 10 true (d :: rest)).map Prod.fst =
          [w ++ "_t" ++ toString k] := by
        unfold buildGroups
        rw [List.foldl_cons]
        refine foldl_addToGroups_const_key 10 true _ rest _ ?_ ?_
        · intro d' hd'
          exact hkey d' (List.mem_cons_of_mem d hd')
        · have hd := hkey d (List.mem_cons_self d rest)
          simp [addToGroups, hd]
      have : (buildGroups 10 true (d :: rest)).length = 1 := by
        have := congrArg List.length hbuild
        simpa using this
      simpa [groupsInOrder] using this
  have : (sortGroups iter).length = iter.length :=
    (List.perm_insertionSort tsLe iter).length_eq
  rw [this, hperm.length_eq, hlen1]

/-- Witness for `c4_amended`: two same-world images at timestamps 10
and 20 (both in bucket 0) form one group. -/
theorem c4_amended_witness :
    (sortGroups (groupsInOrder 10 true
      [ImageData.mk "a.png" (some (ImageMetadata.mk (some (WorldInfo.mk "wrld_A" "A")) [])) (some 10),
       ImageData.mk "b.png" (some (ImageMetadata.mk (some (WorldInfo.mk "wrld_A" "A")) [])) (some 20)])).length = 1 :=
  c4_amended
    [ImageData.mk "a.png" (some (ImageMetadata.mk (some (WorldInfo.mk "wrld_A" "A")) [])) (some 10),
     ImageData.mk "b.png" (some (ImageMetadata.mk (some (WorldInfo.mk "wrld_A" "A")) [])) (some 20)]
    "wrld_A" 0 (by decide) (by decide) (by decide)
    _ ⟨_, List.Perm.refl _, rfl⟩

/-- **C6, counterexample**: two groups created in insertion order
`[w1_t0, w2_t0]` with equal timestamps may be emitted as
`[w2_t0, w1_t0]`: the pre-sort iteration order comes from
`HashMap::into_values`, which does not preserve insertion order, and the
stable sort keeps whatever order the map yielded for equal keys. -/
theorem c6_counterexample :
    possibleOutput 10 true
      [ImageData.mk "a.png" (some (ImageMetadata.mk (some (WorldInfo.mk "w1" "W1")) [])) (some 10),
       ImageData.mk "b.png" (some (ImageMetadata.mk (some (WorldInfo.mk "w2" "W2")) [])) (some 10)]
      [MGroup.mk ["b.png"] (some 10) "w2_t0", MGroup.mk ["a.png"] (some 10) "w1_t0"] ∧
    groupsInOrder 10 true
      [ImageData.mk "a.png" (some (ImageMetadata.mk (some (WorldInfo.mk "w1" "W1")) [])) (some 10),
       ImageData.mk "b.png" (some (ImageMetadata.mk (some (WorldInfo.mk "w2" "W2")) [])) (some 10)] =
      [MGroup.mk ["a.png"] (some 10) "w1_t0", MGroup.mk ["b.png"] (some 10) "w2_t0"] ∧
    tsKey (MGroup.mk ["a.png"] (some 10) "w1_t0") =
      tsKey (MGroup.mk ["b.png"] (some 10) "w2_t0") ∧
    [MGroup.mk ["b.png"] (some 10) "w2_t0", MGroup.mk ["a.png"] (some 10) "w1_t0"] ≠
      [MGroup.mk ["a.png"] (some 10) "w1_t0", MGroup.mk ["b.png"] (some 10) "w2_t0"] := by
  refine ⟨⟨[MGroup.mk ["b.png"] (some 10) "w2_t0", MGroup.mk ["a.png"] (some 10) "w1_t0"], ?_, by decide⟩,
    by decide, by decide, by decide⟩
  have h : groupsInOrder 10 true
      [ImageData.mk "a.png" (some (ImageMetadata.mk (some (WorldInfo.mk "w1" "W1")) [])) (some 10),
       ImageData.mk "b.png" (some (ImageMetadata.mk (some (WorldInfo.mk "w2" "W2")) [])) (some 10)] =
      [MGroup.mk ["a.png"] (some 10) "w1_t0", MGroup.mk ["b.png"] (some 10) "w2_t0"] := by
    decide
  rw [h]
  exact List.Perm.swap (MGroup.mk ["a.png"] (some 10) "w1_t0")
    (MGroup.mk ["b.png"] (some 10) "w2_t0") []

/-- **C6, amended**: every list the grouper can emit is sorted by group
timestamp ascending with an absent timestamp sorting as 0; the order of
groups with equal timestamps, however, is whatever order the hash map
yields them in — it is *not* pinned to insertion order (see the
counterexample). -/
theorem c6_amended (time_window_minutes : Nat) (group_by_world : Bool)
    (ds : List ImageData) (out : List MGroup)
    (h : possibleOutput time_window_minutes group_by_world ds out) :
    List.Sorted tsLe out := by
  obtain ⟨iter, _, rfl⟩ := h
  exact List.sorted_insertionSort tsLe iter

/-- Witness for `c6_amended` on a two-group input. -/
theorem c6_amended_witness :
    possibleOutput 0 false
      [ImageData.mk "x.png" none (some 5), ImageData.mk "y.png" none none]
      (sortGroups (groupsInOrder 0 false
        [ImageData.mk "x.png" none (some 5), ImageData.mk "y.png" none none])) ∧
    List.Sorted tsLe (sortGroups (groupsInOrder 0 false
      [ImageData.mk "x.png" none (some 5), ImageData.mk "y.png" none none])) :=
  ⟨⟨_, List.Perm.refl _, rfl⟩,
   c6_amended 0 false _ _ ⟨_, List.Perm.refl _, rfl⟩⟩

/-! ## C8 — thread title -/

theorem charCount_le (bs : List Nat) : charCount bs ≤ bs.length :=
  List.length_filter_le _ _

/-- **C8, counterexample**: the title is sliced at *byte* 97.  With the
world name `"aaa…a" (79) ++ "é" ++ "aaa"` byte 97 falls inside the
two-byte `é`, so `&title[..97]` panics and the function returns no
result.  And with a name of 84 `é`s the full title has 98 *characters*
(≤ 100) but 185 bytes, so the code truncates it even though the claim
says a ≤100-character title is returned unchanged. -/
theorem c8_counterexample :
    create_thread_title
        [WorldInfo.mk "wid" (String.mk (List.replicate 79 'a') ++ "é" ++ "aaa")] = none ∧
    charCount (fullTitleBytes
        [WorldInfo.mk "w2" (String.mk (List.replicate 84 'é'))]) ≤ 100 ∧
    create_thread_title [WorldInfo.mk "w2" (String.mk (List.replicate 84 'é'))] ≠
      some (fullTitleBytes [WorldInfo.mk "w2" (String.mk (List.replicate 84 'é'))]) := by
  exact ⟨by decide, by decide, by decide⟩

/-- **C8, amended**: whenever `create_thread_title` returns (it panics
when byte 97 of an over-long title is not a character boundary — see the
counterexample), the result is at most 100 *bytes* (hence at most 100
characters); the empty world list yields `"📸 Photos"`; and for a
non-empty world list the result is the untruncated
`"📸 Photos from " ++ join` exactly when that string fits in 100 bytes
(not characters). -/
theorem c8_amended (all_worlds : List WorldInfo) (r : List Nat)
    (h : create_thread_title all_worlds = some r) :
    r.length ≤ 100 ∧ charCount r ≤ 100 ∧
    (all_worlds = [] → r = utf8 "📸 Photos") ∧
    (all_worlds ≠ [] →
      (r = fullTitleBytes all_worlds ↔ (fullTitleBytes all_worlds).length ≤ 100)) := by
  by_cases hw : all_worlds = []
  · subst hw
    have hr : r = utf8 "📸 Photos" := by
      simpa [create_thread_title] using h.symm
    subst hr
    refine ⟨by decide, by decide, fun _ => rfl, fun hne => absurd rfl hne⟩
  · unfold create_thread_title at h
    rw [if_pos hw] at h
    by_cases hlen : (fullTitleBytes all_worlds).length > 100
    · rw [if_pos hlen] at h
      by_cases hbd : is_char_boundary (fullTitleBytes all_worlds) 97 = true
      · rw [if_pos hbd] at h
        have hr : r = (fullTitleBytes all_worlds).take 97 ++ utf8 "..." :=
          (Option.some_injective _ h).symm
        have hrlen : r.length = 100 := by
          rw [hr, List.length_append, List.length_take]
          have hdots : (utf8 "...").length = 3 := by decide
          omega
        refine ⟨by omega, ?_, fun he => absurd he hw, fun _ => ?_⟩
        · exact le_trans (charCount_le r) (by omega)
        · constructor
          · intro he
            rw [← he, hrlen]
          · intro hle
            omega
      · simp only [if_neg hbd] at h
        exact absurd h (by simp)
    · rw [if_neg hlen] at h
      have hr : r = fullTitleBytes all_worlds := (Option.some_injective _ h).symm
      push_neg at hlen
      refine ⟨by rw [hr]; omega, ?_, fun he => absurd he hw, fun _ => ?_⟩
      · exact le_trans (charCount_le r) (by rw [hr]; omega)
      · exact ⟨fun _ => by omega, fun _ => hr⟩

/-- Witness for `c8_amended` at a short one-world list. -/
theorem c8_amended_witness :
    create_thread_title [WorldInfo.mk "i" "W"] =
        some (fullTitleBytes [WorldInfo.mk "i" "W"]) ∧
    ((fullTitleBytes [WorldInfo.mk "i" "W"]).length ≤ 100 ∧
      charCount (fullTitleBytes [WorldInfo.mk "i" "W"]) ≤ 100 ∧
      ([WorldInfo.mk "i" "W"] = ([] : List WorldInfo) →
        fullTitleBytes [WorldInfo.mk "i" "W"] = utf8 "📸 Photos") ∧
      ([WorldInfo.mk "i" "W"] ≠ ([] : List WorldInfo) →
        (fullTitleBytes [WorldInfo.mk "i" "W"] = fullTitleBytes [WorldInfo.mk "i" "W"] ↔
          (fullTitleBytes [WorldInfo.mk "i" "W"]).length ≤ 100))) :=
  ⟨by decide, c8_amended [WorldInfo.mk "i" "W"] _ (by decide)⟩

/-! ## C5 — main message byte bound and player overflow -/

theorem addPlayersLoop_spec :
    ∀ (rest : List PlayerInfo) (content : String), blen content ≤ 1900 →
      blen (addPlayersLoop rest content).1 ≤ 1901 ∧
      ((addPlayersLoop rest content).2 = [] →
        blen (addPlayersLoop rest content).1 ≤ 1900) ∧
      List.IsSuffix (addPlayersLoop rest content).2 rest := by
  intro rest
  induction rest with
  | nil =>
    intro content h
    simp only [addPlayersLoop]
    exact ⟨h.trans (by omega), fun _ => h, List.nil_suffix⟩
  | cons p ps ih =>
    intro content h
    simp only [addPlayersLoop]
    by_cases hover :
        blen content + blen (", " ++ ("**" ++ p.display_name ++ "**")) > 1900
    · rw [if_pos hover]
      have hcomma : blen "," = 1 := by decide
      refine ⟨?_, ?_, List.suffix_refl _⟩
      · rw [blen_append, hcomma]
        omega
      · intro hc
        simp at hc
    · rw [if_neg hover]
      push_neg at hover
      have hle : blen (content ++ (", " ++ ("**" ++ p.display_name ++ "**"))) ≤ 1900 := by
        rw [blen_append]
        omega
      obtain ⟨a, b, c⟩ := ih _ hle
      exact ⟨a, b, c.trans (List.suffix_cons p ps)⟩

theorem addPlayersLoop_all_fit :
    ∀ (rest : List PlayerInfo) (content : String),
      blen content + blen (renderTail rest) ≤ 1900 →
      addPlayersLoop rest content = (content ++ renderTail rest, []) := by
  intro rest
  induction rest with
  | nil =>
    intro content _
    simp only [addPlayersLoop, renderTail, string_append_empty]
  | cons p ps ih =>
    intro content h
    have hr : renderTail (p :: ps) =
        (", " ++ ("**" ++ p.display_name ++ "**")) ++ renderTail ps := rfl
    rw [hr, blen_append] at h
    simp only [addPlayersLoop]
    rw [if_neg (by omega)]
    rw [ih (content ++ (", " ++ ("**" ++ p.display_name ++ "**")))
      (by rw [blen_append]; omega)]
    simp only [hr, string_append_assoc]

theorem blen_mk_cons (c : Char) (l : List Char) :
    blen (String.mk (c :: l)) = (encodeChar c).length + blen (String.mk l) := by
  simp [blen, utf8]

theorem blen_replicate (c : Char) :
    ∀ n, blen (String.mk (List.replicate n c)) = n * (encodeChar c).length := by
  intro n
  induction n with
  | zero => simp [blen, utf8]
  | succ n ih =>
    rw [List.replicate_succ, blen_mk_cons, ih]
    ring

/-- Byte length of one rendered world item: the name, the id twice
(once per link), and 107 bytes of fixed text. -/
theorem blen_world_part (idv nm : String) :
    blen (world_part (WorldInfo.mk idv nm)) = blen nm + 2 * blen idv + 107 := by
  unfold world_part
  rw [blen_append, blen_append, blen_append, blen_append, blen_append,
    blen_append]
  show 2 + blen nm + 53 + blen idv + 49 + blen idv + 3 = _
  omega

/-- Byte length of the timestamp-free header over a single world. -/
theorem blen_message_header_single (w : WorldInfo) :
    blen (message_header [w] none) = 21 + blen (world_part w) := by
  show blen ("📸 Photos taken at " ++
    String.intercalate ", " ([w].map world_part)) = _
  have hinter : String.intercalate ", " ([w].map world_part) = world_part w := rfl
  rw [blen_append, hinter]
  have h1 : blen "📸 Photos taken at " = 21 := by decide
  omega

/-- **C5, counterexample**: (i) a player list can push the main content
to 1901 bytes — the loop appends the continuation comma *after* content
has already reached the 1900-byte cap (world `"W"`, a 1759-byte first
player name making the content exactly 1900 bytes, and one more player
forcing the spill comma); (ii) the worlds/timestamp header itself is
never truncated, so a 1900-byte world name alone exceeds 1900 bytes.
Both contradict "at most 1900 bytes for every input". -/
theorem c5_counterexample :
    blen (create_message_content_with_players [WorldInfo.mk "i" "W"]
        [PlayerInfo.mk "p0" (String.mk (List.replicate 1759 'a')),
         PlayerInfo.mk "p1" "b"] none true).1 = 1901 ∧
    blen (create_message_content_with_players
        [WorldInfo.mk "i" (String.mk (List.replicate 1900 'a'))] [] none false).1
      > 1900 := by
  have hA : (encodeChar 'a').length = 1 := by decide
  constructor
  · have hN : blen (String.mk (List.replicate 1759 'a')) = 1759 := by
      rw [blen_replicate, hA]
    have hheader : blen (message_header [WorldInfo.mk "i" "W"] none) = 131 := by
      rw [blen_message_header_single, blen_world_part]
      decide
    have hwith : blen " with " = 6 := by decide
    have hstar : blen "**" = 2 := by decide
    have hfirst : blen ("**" ++ (PlayerInfo.mk "p0"
        (String.mk (List.replicate 1759 'a'))).display_name ++ "**") = 1763 := by
      rw [blen_append, blen_append]
      have hproj : (PlayerInfo.mk "p0"
          (String.mk (List.replicate 1759 'a'))).display_name =
          String.mk (List.replicate 1759 'a') := rfl
      rw [hproj, hN, hstar]
    have hfit : blen (message_header [WorldInfo.mk "i" "W"] none) + blen " with " +
        blen ("**" ++ (PlayerInfo.mk "p0"
          (String.mk (List.replicate 1759 'a'))).display_name ++ "**") ≤ 1900 := by
      rw [hheader, hwith, hfirst]
    unfold create_message_content_with_players
    rw [if_pos (show [WorldInfo.mk "i" "W"] ≠ [] by simp)]
    rw [if_pos (show (true = true) ∧
      [PlayerInfo.mk "p0" (String.mk (List.replicate 1759 'a')),
       PlayerInfo.mk "p1" "b"] ≠ [] from ⟨rfl, by simp⟩)]
    simp only [if_pos hfit]
    simp only [addPlayersLoop]
    have hc0 : blen (message_header [WorldInfo.mk "i" "W"] none ++ " with " ++
        ("**" ++ (PlayerInfo.mk "p0"
          (String.mk (List.replicate 1759 'a'))).display_name ++ "**")) = 1900 := by
      rw [blen_append, blen_append, hheader, hwith, hfirst]
    have hadd : blen (", " ++ ("**" ++ (PlayerInfo.mk "p1" "b").display_name ++ "**")) = 7 := by
      decide
    rw [if_pos (by rw [hc0, hadd]; omega)]
    rw [blen_append, hc0]
    decide
  · have hB : blen (String.mk (List.replicate 1900 'a')) = 1900 := by
      rw [blen_replicate, hA]
    unfold create_message_content_with_players
    rw [if_pos (show [WorldInfo.mk "i" (String.mk (List.replicate 1900 'a'))] ≠ [] by simp)]
    rw [if_neg (show ¬ ((false = true) ∧ ([] : List PlayerInfo) ≠ []) from
      fun hc => Bool.false_ne_true hc.1)]
    show blen (message_header
      [WorldInfo.mk "i" (String.mk (List.replicate 1900 'a'))] none) > 1900
    rw [blen_message_header_single, blen_world_part, hB]
    have h4 : blen "i" = 1 := by decide
    rw [h4]
    omega

/-- **C5, amended**: whenever the worlds/timestamp header plus
`" with "` plus the first player fits in 1900 bytes, the main content is
at most 1901 bytes (1901 occurs exactly via the trailing continuation
comma when players spill); it is at most 1900 bytes when no player
spills; the spilled players are a suffix of the player list (the spill
happens at a comma-separated player boundary); and a rendering of all
players that fits in 1900 bytes is emitted whole, with no overflow.
Without the header-fit condition the content is the bare header, which
is unbounded (see the counterexample). -/
theorem c5_amended (all_worlds : List WorldInfo) (timestamp : Option Int)
    (p0 : PlayerInfo) (rest : List PlayerInfo)
    (hw : all_worlds ≠ [])
    (hfit : blen (message_header all_worlds timestamp) + blen " with " +
        blen ("**" ++ p0.display_name ++ "**") ≤ 1900) :
    blen (create_message_content_with_players all_worlds (p0 :: rest)
        timestamp true).1 ≤ 1901 ∧
    ((create_message_content_with_players all_worlds (p0 :: rest)
        timestamp true).2.1 = [] →
      blen (create_message_content_with_players all_worlds (p0 :: rest)
          timestamp true).1 ≤ 1900) ∧
    List.IsSuffix (create_message_content_with_players all_worlds (p0 :: rest)
        timestamp true).2.1 (p0 :: rest) ∧
    (blen (message_header all_worlds timestamp ++ " with " ++
        ("**" ++ p0.display_name ++ "**") ++ renderTail rest) ≤ 1900 →
      (create_message_content_with_players all_worlds (p0 :: rest)
          timestamp true).1 =
        message_header all_worlds timestamp ++ " with " ++
          ("**" ++ p0.display_name ++ "**") ++ renderTail rest ∧
      (create_message_content_with_players all_worlds (p0 :: rest)
          timestamp true).2.1 = []) := by
  have hwith : blen " with " = 6 := by decide
  have hcw : create_message_content_with_players all_worlds (p0 :: rest)
      timestamp true =
      ((addPlayersLoop rest (message_header all_worlds timestamp ++ " with " ++
          ("**" ++ p0.display_name ++ "**"))).1,
       (addPlayersLoop rest (message_header all_worlds timestamp ++ " with " ++
          ("**" ++ p0.display_name ++ "**"))).2, true) := by
    unfold create_message_content_with_players
    rw [if_pos hw]
    rw [if_pos (show (true = true) ∧ p0 :: rest ≠ [] from ⟨rfl, by simp⟩)]
    simp only [if_pos hfit]
  have hstart : blen (message_header all_worlds timestamp ++ " with " ++
      ("**" ++ p0.display_name ++ "**")) ≤ 1900 := by
    rw [blen_append, blen_append]
    omega
  obtain ⟨h1, h2, h3⟩ := addPlayersLoop_spec rest _ hstart
  rw [hcw]
  refine ⟨h1, h2, h3.trans (List.suffix_cons p0 rest), ?_⟩
  intro hall
  have hfitall : blen (message_header all_worlds timestamp ++ " with " ++
      ("**" ++ p0.display_name ++ "**")) + blen (renderTail rest) ≤ 1900 := by
    rw [← blen_append]
    exact hall
  rw [addPlayersLoop_all_fit rest _ hfitall]
  exact ⟨rfl, rfl⟩

/-- Witness for `c5_amended`: one world, one short player. -/
theorem c5_amended_witness :
    ([WorldInfo.mk "i" "W"] ≠ ([] : List WorldInfo) ∧
      blen (message_header [WorldInfo.mk "i" "W"] none) + blen " with " +
        blen ("**" ++ (PlayerInfo.mk "p" "Ann").display_name ++ "**") ≤ 1900) ∧
    blen (create_message_content_with_players [WorldInfo.mk "i" "W"]
        [PlayerInfo.mk "p" "Ann"] none true).1 ≤ 1901 := by
  refine ⟨⟨by decide, by decide⟩, ?_⟩
  exact (c5_amended [WorldInfo.mk "i" "W"] none (PlayerInfo.mk "p" "Ann") []
    (by decide) (by decide)).1

/-! ## C1 — ordering of text and image webhook calls in a group -/

theorem textBefore_phase_append (isForum is_first_group : Bool)
    (fields : TextFields) (ov : List String) (tid : Option String)
    (idx : Nat) (net : Nat → NetResult) (rest : List Call) :
    textBeforeFirstImage
      ((firstTextPhase isForum is_first_group fields ov tid idx net).calls ++ rest) =
      true := by
  unfold firstTextPhase
  cases hb : isForum && is_first_group with
  | false =>
    cases hn : net idx with
    | err => simp [textBeforeFirstImage]
    | ok t => simp [textBeforeFirstImage]
  | true =>
    cases hn : net idx with
    | err => simp [textBeforeFirstImage]
    | ok t =>
      cases t with
      | none => simp [textBeforeFirstImage]
      | some tid2 => simp [textBeforeFirstImage]

/-- Trace shape of the first chunk iteration: with overflow messages the
trace opens with the text-first phase; without them it opens with the
image-chunk call that carries the text fields. -/
theorem runChunks_cons_shape (all_worlds : List WorldInfo)
    (all_players : List PlayerInfo) (timestamp : Option Int)
    (isForum is_first_group includeNames : Bool) (totalChunks : Nat)
    (net : Nat → NetResult) (chunk : List String) (rest : List (List String))
    (k : Nat) (tr : List Call) (ok : Bool) (fields : TextFields)
    (ov : List String)
    (hrun : runChunks all_worlds all_players timestamp isForum is_first_group
      includeNames totalChunks net (chunk :: rest) 0 true none k = some (tr, ok))
    (hpay : create_discord_payload all_worlds all_players timestamp true 0
      (isForum && is_first_group) none includeNames = some (fields, ov)) :
    (ov ≠ [] → ∃ s, tr =
      (firstTextPhase isForum is_first_group fields ov none k net).calls ++ s) ∧
    (ov = [] → ∃ s, tr = Call.imageChunk chunk fields none :: s) := by
  simp only [runChunks, hpay] at hrun
  by_cases hov : ov = []
  · refine ⟨fun hc => absurd hov hc, fun _ => ?_⟩
    simp only [if_neg (fun hc : True ∧ ov ≠ [] => hc.2 hov)] at hrun
    split at hrun
    next h => exact absurd h Bool.false_ne_true
    next h =>
      split at hrun
      next hg => exact absurd hg (fun hc => Nat.lt_irrefl 0 hc.2.1)
      next hg =>
        split at hrun
        next hn =>
          injection hrun with hp
          injection hp with h1 h2
          exact ⟨[], by rw [← h1, List.nil_append]⟩
        next tidOpt hn =>
          split at hrun
          next hf =>
            split at hrun
            next htid =>
              rcases Option.map_eq_some'.mp hrun with ⟨r', _, heq⟩
              injection heq with h1 h2
              exact ⟨r'.1, by rw [← h1, List.nil_append]⟩
            next htid =>
              split at hrun
              next htc =>
                injection hrun with hp
                injection hp with h1 h2
                exact ⟨[], by rw [← h1, List.nil_append]⟩
              next htc =>
                rcases Option.map_eq_some'.mp hrun with ⟨r', _, heq⟩
                injection heq with h1 h2
                exact ⟨r'.1, by rw [← h1, List.nil_append]⟩
          next hf =>
            rcases Option.map_eq_some'.mp hrun with ⟨r', _, heq⟩
            injection heq with h1 h2
            exact ⟨r'.1, by rw [← h1, List.nil_append]⟩
  · refine ⟨fun _ => ?_, fun hc => absurd hc hov⟩
    simp only [if_pos (show True ∧ ov ≠ [] from ⟨trivial, hov⟩)] at hrun
    split at hrun
    next h =>
      injection hrun with hp
      injection hp with h1 h2
      exact ⟨[], by rw [← h1, List.append_nil]⟩
    next h =>
      split at hrun
      next hg => exact absurd hg (fun hc => Nat.lt_irrefl 0 hc.2.1)
      next hg =>
        split at hrun
        next hn =>
          injection hrun with hp
          injection hp with h1 h2
          exact ⟨_, h1.symm⟩
        next tidOpt hn =>
          split at hrun
          next hf =>
            split at hrun
            next htid =>
              rcases Option.map_eq_some'.mp hrun with ⟨r', _, heq⟩
              injection heq with h1 h2
              exact ⟨_, h1.symm⟩
            next htid =>
              split at hrun
              next htc =>
                injection hrun with hp
                injection hp with h1 h2
                exact ⟨_, h1.symm⟩
              next htc =>
                rcases Option.map_eq_some'.mp hrun with ⟨r', _, heq⟩
                injection heq with h1 h2
                exact ⟨_, h1.symm⟩
          next hf =>
            rcases Option.map_eq_some'.mp hrun with ⟨r', _, heq⟩
            injection heq with h1 h2
            exact ⟨_, h1.symm⟩

/-- **C1, counterexample**: a group with no players produces no overflow
messages, and then the driver sends *no* separate text-only call: the
very first webhook call of the group is the image chunk, with the main
text riding in its multipart text fields (here: one image, non-forum,
all calls succeed, and the group succeeds). -/
theorem c1_counterexample :
    (process_image_group [] [] none 10 false false true ["a.png"]
        (fun _ => NetResult.ok none)).map (fun r => textBeforeFirstImage r.1) =
      some false ∧
    (process_image_group [] [] none 10 false false true ["a.png"]
        (fun _ => NetResult.ok none)).map (fun r => r.2) = some true :=
  ⟨rfl, rfl⟩

/-- **C1, amended**: the separate text-only webhook call precedes the
first image chunk of a group exactly when the first message produces
overflow player messages.  With overflow, some text-only call strictly
precedes every image call of the trace; without overflow, the trace
*begins* with the image chunk of the first `effective_max` images, which
carries the main content (and `thread_name` when forum and first group)
in its own payload instead of a preceding text-only call. -/
theorem c1_amended (all_worlds : List WorldInfo) (all_players : List PlayerInfo)
    (timestamp : Option Int) (max_images : Nat)
    (isForum includeNames is_first_group : Bool)
    (images : List String) (net : Nat → NetResult) (tr : List Call) (ok : Bool)
    (hmax : max_images ≠ 0) (himg : images ≠ [])
    (hrun : process_image_group all_worlds all_players timestamp max_images
      isForum includeNames is_first_group images net = some (tr, ok))
    (fields : TextFields) (ov : List String)
    (hpay : create_discord_payload all_worlds all_players timestamp true 0
      (isForum && is_first_group) none includeNames = some (fields, ov)) :
    (ov ≠ [] → textBeforeFirstImage tr = true) ∧
    (ov = [] → tr.head? = some (Call.imageChunk
      (images.take (if isForum && max_images > 10 then 10 else max_images))
      fields none)) := by
  have heffne : (if isForum && max_images > 10 then 10 else max_images) ≠ 0 := by
    split
    · omega
    · exact hmax
  cases himages : images with
  | nil => exact absurd himages himg
  | cons x xs =>
    rw [himages] at hrun
    unfold process_image_group at hrun
    simp only [] at hrun
    rw [chunksOf_cons _ x xs heffne] at hrun
    obtain ⟨h1, h2⟩ := runChunks_cons_shape all_worlds all_players timestamp
      isForum is_first_group includeNames _ net _ _ 0 tr ok fields ov hrun hpay
    constructor
    · intro hov
      obtain ⟨s, hs⟩ := h1 hov
      rw [hs]
      exact textBefore_phase_append isForum is_first_group fields ov none 0 net s
    · intro hov
      obtain ⟨s, hs⟩ := h2 hov
      rw [hs]
      rfl

/-- Witness for `c1_amended`: two images, chunk size 1, non-forum, no
players — the trace is two image chunks, the first carrying the text. -/
theorem c1_amended_witness :
    ((([] : List String) ≠ []) →
      textBeforeFirstImage
        [Call.imageChunk ["b.png"] (TextFields.mk (some "📸 Photos") none) none,
         Call.imageChunk ["c.png"] (TextFields.mk none none) none] = true) ∧
    ((([] : List String) = []) →
      List.head?
        [Call.imageChunk ["b.png"] (TextFields.mk (some "📸 Photos") none) none,
         Call.imageChunk ["c.png"] (TextFields.mk none none) none] =
        some (Call.imageChunk
          (["b.png", "c.png"].take (if false && (1 : Nat) > 10 then 10 else 1))
          (TextFields.mk (some "📸 Photos") none) none)) :=
  c1_amended [] [] none 1 false false true ["b.png", "c.png"]
    (fun _ => NetResult.ok none)
    [Call.imageChunk ["b.png"] (TextFields.mk (some "📸 Photos") none) none,
     Call.imageChunk ["c.png"] (TextFields.mk none none) none]
    true (by decide) (by decide) rfl (TextFields.mk (some "📸 Photos") none) [] rfl

end VPU
